import Mathlib

/-!
Verification of the perceval data-collection core against its source.

The embedded code comes from `src/perceval/backends/jira.py`,
`src/perceval/backends/stackexchange.py` and
`src/perceval/backends/core/mbox.py`.  The shared core modules
(`perceval/cache.py`, `perceval/backend.py`, `perceval/utils.py`) are not
part of the shown sources, so their behaviour is modelled from the
specification where a claim needs them; every such definition is marked
`Modelled from the spec:` in its doc comment.
-/

namespace Perceval

/-- Modelled from the spec: `perceval/cache.py` is not under `src/`.
Replay Cache state (spec §4.2): an in-memory pending queue, an on-disk
log of flushed raw pages, and at most one backup copy of the log. -/
structure Cache where
  pending : List String
  log : List String
  backupLog : Option (List String)
deriving DecidableEq, Repr

/-- Modelled from the spec: `push(raw_page)` appends a page to the
in-memory pending queue; it does not touch disk. -/
def Cache.push (c : Cache) (p : String) : Cache :=
  { c with pending := c.pending ++ [p] }

/-- Modelled from the spec: `flush()` appends the pending queue's contents
to the on-disk log and clears the pending queue. -/
def Cache.flush (c : Cache) : Cache :=
  { c with log := c.log ++ c.pending, pending := [] }

/-- Modelled from the spec: `purge()` discards any pending (unflushed)
in-memory content. -/
def Cache.purge (c : Cache) : Cache :=
  { c with pending := [] }

/-- Modelled from the spec: `retrieve()` produces the previously flushed
raw pages, in original flush order. -/
def Cache.retrieve (c : Cache) : List String :=
  c.log

/-- Modelled from the spec: `backup()` copies the existing on-disk log to
a backup location. -/
def Cache.backup (c : Cache) : Cache :=
  { c with backupLog := some c.log }

/-- Modelled from the spec: `recover()` restores the on-disk log from the
most recent backup, discarding any writes made since; when no backup
exists the log is left as it is. -/
def Cache.recover (c : Cache) : Cache :=
  match c.backupLog with
  | some l => { c with log := l }
  | none => c

/-- Modelled from the spec: `clean()` erases the on-disk log and any
backup. -/
def Cache.clean (c : Cache) : Cache :=
  { c with log := [], backupLog := none }

/-- Error raised by `fetch_from_cache` when no cache was supplied
(`perceval/errors.py` is not under `src/`; the raise site is
`jira.py` line 112 / `stackexchange.py` line 109). -/
inductive CacheError where
  | notProvided
deriving DecidableEq, Repr

/-- One step of the loop in `Jira.fetch` (jira.py lines 95-100): for each
whole page, push it to the cache queue, flush the queue, parse the page
and yield its issues.  `parse` stands for the injected
`Jira.parse_issues` JSON stage (an external collaborator per spec §1). -/
def jiraFetchStep (parse : String → List α) (acc : List α × Cache)
    (page : String) : List α × Cache :=
  ((acc.2.push page).flush, acc.1 ++ parse page).swap

/-- `Jira.fetch` (jira.py lines 74-100): purge the cache queue, then fold
the per-page loop over the pages produced by the client.  The same loop
shape appears in `StackExchange.fetch` (stackexchange.py lines 86-97). -/
def jiraFetch (parse : String → List α) (pages : List String) (c : Cache) :
    List α × Cache :=
  pages.foldl (jiraFetchStep parse) ([], c.purge)

/-- `Jira.fetch_from_cache` (jira.py lines 102-119): raise `CacheError`
when no cache instance was provided, otherwise parse every page of
`cache.retrieve()` in order and yield the issues. -/
def jiraFetchFromCache (parse : String → List α) (cache : Option Cache) :
    Except CacheError (List α) :=
  match cache with
  | none => .error .notProvided
  | some c => .ok (c.retrieve.flatMap parse)

/-- `StackExchange.fetch_from_cache` (stackexchange.py lines 99-116): the
same checks and loop as the Jira variant, with `parse_questions` as the
parse stage. -/
def stackExchangeFetchFromCache (parse : String → List α)
    (cache : Option Cache) : Except CacheError (List α) :=
  match cache with
  | none => .error .notProvided
  | some c => .ok (c.retrieve.flatMap parse)

theorem jiraFetch_foldl (parse : String → List α) :
    ∀ (pages : List String) (acc : List α) (c : Cache),
      c.pending = [] →
      pages.foldl (jiraFetchStep parse) (acc, c) =
        (acc ++ pages.flatMap parse,
          ⟨[], c.log ++ pages, c.backupLog⟩) := by
  intro pages
  induction pages with
  | nil =>
    intro acc c hc
    cases c with
    | mk pending log backupLog =>
      simp_all [List.foldl]
  | cons p ps ih =>
    intro acc c hc
    have step :
        jiraFetchStep parse (acc, c) p =
          (acc ++ parse p, ⟨[], c.log ++ [p], c.backupLog⟩) := by
      cases c with
      | mk pending log backupLog =>
        simp_all [jiraFetchStep, Cache.push, Cache.flush, Prod.swap]
    have ih' := ih (acc ++ parse p) ⟨[], c.log ++ [p], c.backupLog⟩ rfl
    simp only [List.foldl, step, ih', List.flatMap_cons, List.append_assoc,
      List.singleton_append]

theorem jiraFetch_eq (parse : String → List α) (pages : List String)
    (c : Cache) :
    jiraFetch parse pages c =
      (pages.flatMap parse, ⟨[], c.log ++ pages, c.backupLog⟩) := by
  have h := jiraFetch_foldl parse pages ([] : List α) c.purge rfl
  simpa [jiraFetch, Cache.purge] using h

/-- C1.  Cache round-trip replay: a successful fetch session over a fresh
cache pushes and flushes each raw page; afterwards `retrieve()` yields
exactly those pages in push order, and `fetch_from_cache()` yields the
same parsed items in the same order as the fetch did. -/
theorem cache_round_trip_replay (parse : String → List α)
    (pages : List String) (c : Cache) (h : c.log = []) :
    (jiraFetch parse pages c).2.retrieve = pages ∧
      jiraFetchFromCache parse (some (jiraFetch parse pages c).2) =
        .ok (jiraFetch parse pages c).1 := by
  constructor
  · simp [jiraFetch_eq, Cache.retrieve, h]
  · simp [jiraFetch_eq, jiraFetchFromCache, Cache.retrieve, h]

theorem cache_round_trip_replay_witness :
    (⟨[], [], none⟩ : Cache).log = [] ∧
      ((jiraFetch (fun s => [s ++ "!"]) ["p0", "p1"] ⟨[], [], none⟩).2.retrieve
          = ["p0", "p1"] ∧
        jiraFetchFromCache (fun s => [s ++ "!"])
            (some (jiraFetch (fun s => [s ++ "!"]) ["p0", "p1"]
              ⟨[], [], none⟩).2) =
          .ok (jiraFetch (fun s => [s ++ "!"]) ["p0", "p1"]
            ⟨[], [], none⟩).1) :=
  ⟨rfl, cache_round_trip_replay (fun s => [s ++ "!"]) ["p0", "p1"]
    ⟨[], [], none⟩ rfl⟩

/-- C8.  `fetch_from_cache` raises `CacheError` before yielding any item
when the backend was built without a cache, and raises no such error
when a cache is supplied; this holds for both the Jira and the
StackExchange variant. -/
theorem fetch_from_cache_config_error (parse : String → List α) :
    jiraFetchFromCache parse none = .error CacheError.notProvided ∧
      stackExchangeFetchFromCache parse none =
        .error CacheError.notProvided ∧
      (∀ c : Cache, jiraFetchFromCache parse (some c) =
        .ok (c.retrieve.flatMap parse)) ∧
      (∀ c : Cache, stackExchangeFetchFromCache parse (some c) =
        .ok (c.retrieve.flatMap parse)) := by
  refine ⟨rfl, rfl, fun c => rfl, fun c => rfl⟩

/-- Observable events of one `fetch` session, used to reason about the
order of cache writes and yields inside the loop of `Jira.fetch`
(jira.py lines 95-100) and `StackExchange.fetch` (stackexchange.py lines
92-97).  `yieldItem k i` records that item `i` of the `k`-th raw page
was yielded to the caller. -/
inductive FetchEvent (α : Type u) where
  | pushPage (p : String)
  | flushQueue
  | yieldItem (k : Nat) (i : α)
deriving DecidableEq, Repr

/-- Event trace of the fetch loop starting at page index `k`: for each
page, `push` then `flush` then the yields of its parsed items, exactly
as the loop body orders them in the source. -/
def fetchTraceFrom (parse : String → List α) :
    Nat → List String → List (FetchEvent α)
  | _, [] => []
  | k, p :: ps =>
    .pushPage p :: .flushQueue ::
      ((parse p).map (FetchEvent.yieldItem k) ++ fetchTraceFrom parse (k + 1) ps)

/-- Event trace of a whole `fetch` session. -/
def fetchTrace (parse : String → List α) (pages : List String) :
    List (FetchEvent α) :=
  fetchTraceFrom parse 0 pages

/-- Effect of one event on the cache: `pushPage` appends to the pending
queue, `flushQueue` flushes it, a yield does not touch the cache. -/
def applyEvent (c : Cache) : FetchEvent α → Cache
  | .pushPage p => c.push p
  | .flushQueue => c.flush
  | .yieldItem _ _ => c

/-- Cache state reached after a (possibly partial) run of the session. -/
def replayEvents (c : Cache) (evs : List (FetchEvent α)) : Cache :=
  evs.foldl applyEvent c

/-- Items yielded along a trace, in order. -/
def tracedYields : List (FetchEvent α) → List α :=
  List.filterMap fun e =>
    match e with
    | .yieldItem _ i => some i
    | _ => none

theorem replayEvents_append (c : Cache) (a b : List (FetchEvent α)) :
    replayEvents c (a ++ b) = replayEvents (replayEvents c a) b := by
  simp [replayEvents, List.foldl_append]

theorem replayEvents_yieldItems (c : Cache) (k : Nat) (l : List α) :
    replayEvents c (l.map (FetchEvent.yieldItem k)) = c := by
  induction l generalizing c with
  | nil => rfl
  | cons x xs ih => simpa [replayEvents, applyEvent] using ih c

theorem replayEvents_log_extends (evs : List (FetchEvent α)) :
    ∀ c : Cache, ∃ r, (replayEvents c evs).log = c.log ++ r := by
  induction evs with
  | nil => exact fun c => ⟨[], by simp [replayEvents]⟩
  | cons e evs ih =>
    intro c
    obtain ⟨r, hr⟩ := ih (applyEvent c e)
    cases e with
    | pushPage p => exact ⟨r, by simpa [replayEvents, applyEvent, Cache.push] using hr⟩
    | flushQueue =>
      refine ⟨c.pending ++ r, ?_⟩
      simpa [replayEvents, applyEvent, Cache.flush] using hr
    | yieldItem k i => exact ⟨r, by simpa [replayEvents, applyEvent] using hr⟩

theorem replayEvents_backupLog (evs : List (FetchEvent α)) :
    ∀ c : Cache, (replayEvents c evs).backupLog = c.backupLog := by
  induction evs with
  | nil => exact fun c => rfl
  | cons e evs ih =>
    intro c
    have := ih (applyEvent c e)
    cases e <;> simpa [replayEvents, applyEvent, Cache.push, Cache.flush] using this

theorem durability_aux (parse : String → List α) :
    ∀ (ps : List String) (k0 : Nat) (c : Cache) (n k : Nat) (i : α),
      c.pending = [] →
      FetchEvent.yieldItem k i ∈ (fetchTraceFrom parse k0 ps).take n →
      ∃ p, ps[k - k0]? = some p ∧ k0 ≤ k ∧
        p ∈ (replayEvents c ((fetchTraceFrom parse k0 ps).take n)).log := by
  intro ps
  induction ps with
  | nil =>
    intro k0 c n k i _ h
    simp [fetchTraceFrom] at h
  | cons p ps ih =>
    intro k0 c n k i hpend h
    match n with
    | 0 => simp at h
    | 1 => simp [fetchTraceFrom] at h
    | Nat.succ (Nat.succ n) =>
      have hA : ((parse p).map (FetchEvent.yieldItem k0) ++
            fetchTraceFrom parse (k0 + 1) ps).take n =
          ((parse p).take n).map (FetchEvent.yieldItem k0) ++
            (fetchTraceFrom parse (k0 + 1) ps).take
              (n - ((parse p).map (FetchEvent.yieldItem k0)).length) := by
        rw [List.take_append_eq_append_take, List.map_take]
      set m := n - ((parse p).map (FetchEvent.yieldItem k0)).length with hm
      have hcons :
          (fetchTraceFrom parse k0 (p :: ps)).take (n + 2) =
            .pushPage p :: .flushQueue ::
              (((parse p).take n).map (FetchEvent.yieldItem k0) ++
                (fetchTraceFrom parse (k0 + 1) ps).take m) := by
        simp only [fetchTraceFrom, List.take_succ_cons, hA]
      rw [hcons] at h ⊢
      set cFlushed : Cache := (c.push p).flush with hcf
      have hcfPend : cFlushed.pending = [] := by
        simp [hcf, Cache.push, Cache.flush]
      have hcfLog : cFlushed.log = c.log ++ [p] := by
        simp [hcf, Cache.push, Cache.flush, hpend]
      have hreplay :
          replayEvents c (FetchEvent.pushPage p :: .flushQueue ::
              (((parse p).take n).map (FetchEvent.yieldItem k0) ++
                (fetchTraceFrom parse (k0 + 1) ps).take m)) =
            replayEvents cFlushed
              ((fetchTraceFrom parse (k0 + 1) ps).take m) := by
        have hyields :
            replayEvents cFlushed
                (((parse p).take n).map (FetchEvent.yieldItem k0)) =
              cFlushed :=
          replayEvents_yieldItems cFlushed k0 ((parse p).take n)
        simp only [replayEvents, List.foldl_cons, List.foldl_append]
        simp only [replayEvents] at hyields
        rw [show applyEvent (applyEvent c (FetchEvent.pushPage p))
            FetchEvent.flushQueue = cFlushed from rfl, hyields]
      rw [hreplay]
      simp only [List.mem_cons, List.mem_append] at h
      rcases h with h | h | h | h
      · exact absurd h (by simp)
      · exact absurd h (by simp)
      · -- the yield is an item of page `p` itself
        have hk : k = k0 := by
          rcases List.mem_map.mp h with ⟨x, _, hx⟩
          exact ((FetchEvent.yieldItem.injEq _ _ _ _).mp hx).1.symm
        obtain ⟨r, hr⟩ :=
          replayEvents_log_extends ((fetchTraceFrom parse (k0 + 1) ps).take m)
            cFlushed
        refine ⟨p, ?_, le_of_eq hk.symm, ?_⟩
        · simp [hk]
        · rw [hr, hcfLog]
          simp
      · -- the yield belongs to a later page: induction hypothesis
        obtain ⟨q, hget, hle, hmem⟩ := ih (k0 + 1) cFlushed m k i hcfPend h
        refine ⟨q, ?_, by omega, hmem⟩
        have : k - k0 = (k - (k0 + 1)) + 1 := by omega
        rw [this]
        simpa using hget

/-- C2.  Per-page durability ordering: in every fetch session, whenever
an item of the `k`-th raw page has been yielded by any partial run
(`take n` of the session trace), that page has already been pushed and
flushed, i.e. it is present in the on-disk cache log of the state the
partial run reaches.  The trace orders the events exactly as
`Jira.fetch` / `StackExchange.fetch` do: push, flush, then parse and
yield. -/
theorem per_page_durability (parse : String → List α) (pages : List String)
    (c : Cache) (n k : Nat) (i : α)
    (h : FetchEvent.yieldItem k i ∈ (fetchTrace parse pages).take n) :
    ∃ p, pages[k]? = some p ∧
      p ∈ (replayEvents c.purge ((fetchTrace parse pages).take n)).log := by
  obtain ⟨p, hget, _, hmem⟩ :=
    durability_aux parse pages 0 c.purge n k i rfl h
  exact ⟨p, by simpa using hget, hmem⟩

theorem per_page_durability_witness :
    FetchEvent.yieldItem 0 (1 : Nat) ∈
        (fetchTrace (fun s => [s.length]) ["p"]).take 3 ∧
      ∃ p, (["p"] : List String)[0]? = some p ∧
        p ∈ (replayEvents (Cache.purge ⟨[], [], none⟩)
          ((fetchTrace (fun s => [s.length]) ["p"]).take 3)).log :=
  ⟨by decide,
    per_page_durability (fun s => [s.length]) ["p"] ⟨[], [], none⟩ 3 0 1
      (by decide)⟩

theorem recover_of_backupLog (c : Cache) (l : List String)
    (h : c.backupLog = some l) :
    c.recover.retrieve = l ∧ c.recover.recover = c.recover := by
  cases c with
  | mk pend log bl =>
    simp only at h
    subst h
    exact ⟨rfl, rfl⟩

/-- C3.  Rollback atomicity, following `JiraCommand`: `__init__`
(jira.py lines 258-273) calls `cache.backup()` before the session;
`run` (lines 292-307) calls `cache.recover()` when the session raises
partway (modelled as an arbitrary `take n` of the session's event
trace).  After `recover()`, `retrieve()` yields exactly the pre-session
pages, and `recover()` is idempotent. -/
theorem rollback_atomicity (parse : String → List α) (pages : List String)
    (c0 : Cache) (n : Nat) :
    (replayEvents (c0.backup.purge)
        ((fetchTrace parse pages).take n)).recover.retrieve = c0.retrieve ∧
      (replayEvents (c0.backup.purge)
          ((fetchTrace parse pages).take n)).recover.recover =
        (replayEvents (c0.backup.purge)
          ((fetchTrace parse pages).take n)).recover := by
  have hb : (replayEvents (c0.backup.purge)
      ((fetchTrace parse pages).take n)).backupLog = some c0.log := by
    rw [replayEvents_backupLog]
    simp [Cache.backup, Cache.purge]
  exact recover_of_backupLog _ _ hb

/-- An mbox message as produced by `MBox.parse_mbox`: the two headers the
backend validates (`Message-ID`, `Date`), plus the rest of the message
kept opaque.  `none` models a missing header, `some ""` an empty one. -/
structure MboxMessage where
  messageId : Option String
  date : Option String
  body : String
deriving DecidableEq, Repr

/-- `MBox._validate_message` (mbox.py lines 160-193): `Message-ID` must be
present and non-empty, `Date` must be present, non-empty and parse as a
date.  `parseDate` stands for the external `str_to_datetime` utility
(spec §1 lists date-string parsing as an external collaborator),
returning `none` where the utility raises `InvalidDateError`. -/
def validateMessage (parseDate : String → Option Nat) (m : MboxMessage) :
    Bool :=
  match m.messageId with
  | none => false
  | some mid =>
    if mid = "" then false
    else
      match m.date with
      | none => false
      | some d => if d = "" then false else (parseDate d).isSome

/-- Counters of `MBox._fetch_and_parse_messages`: the yielded messages and
the `nmsgs` (fetched), `imsgs` (ignored), `tmsgs` (total seen) counters
of mbox.py line 105. -/
structure MboxState where
  yielded : List MboxMessage
  nmsgs : Nat
  imsgs : Nat
  tmsgs : Nat
deriving DecidableEq, Repr

/-- Loop body of `MBox._fetch_and_parse_messages` (mbox.py lines
111-133): count the message seen; when validation fails count it
ignored and skip it; when its date is before `from_date` uncount it and
skip it; otherwise yield it and count it fetched. -/
def processMessage (parseDate : String → Option Nat) (fromDate : Nat)
    (st : MboxState) (m : MboxMessage) : MboxState :=
  let st1 := { st with tmsgs := st.tmsgs + 1 }
  if validateMessage parseDate m = false then
    { st1 with imsgs := st1.imsgs + 1 }
  else
    match m.date.bind parseDate with
    | some dt =>
      if dt < fromDate then { st1 with tmsgs := st1.tmsgs - 1 }
      else { st1 with yielded := st1.yielded ++ [m], nmsgs := st1.nmsgs + 1 }
    | none => st1   -- unreachable: validation ensured the date parses

/-- `MBox._fetch_and_parse_messages` (mbox.py lines 100-146) over the
parsed messages of the mailing list's mboxes. -/
def mboxFetchAndParse (parseDate : String → Option Nat) (fromDate : Nat)
    (msgs : List MboxMessage) : MboxState :=
  msgs.foldl (processMessage parseDate fromDate) ⟨[], 0, 0, 0⟩

/-- A message survives the session iff it validates and its date is
at-or-after `from_date` (the `dt < from_date` skip at mbox.py line 121). -/
def keepMessage (parseDate : String → Option Nat) (fromDate : Nat)
    (m : MboxMessage) : Bool :=
  validateMessage parseDate m &&
    (match m.date.bind parseDate with
      | some dt => decide (fromDate ≤ dt)
      | none => false)

/-- A message that validates but is dated before `from_date` (skipped and
uncounted at mbox.py lines 121-125). -/
def dateSkipped (parseDate : String → Option Nat) (fromDate : Nat)
    (m : MboxMessage) : Bool :=
  validateMessage parseDate m &&
    (match m.date.bind parseDate with
      | some dt => decide (dt < fromDate)
      | none => false)

theorem validateMessage_parses (pd : String → Option Nat) (m : MboxMessage)
    (h : validateMessage pd m = true) :
    ∃ dt, m.date.bind pd = some dt := by
  unfold validateMessage at h
  cases hid : m.messageId with
  | none => rw [hid] at h; exact absurd h (by simp)
  | some mid =>
    rw [hid] at h
    by_cases hmid : mid = "" <;> simp [hmid] at h
    cases hd : m.date with
    | none => rw [hd] at h; exact absurd h (by simp)
    | some d =>
      rw [hd] at h
      by_cases hde : d = "" <;> simp [hde] at h
      obtain ⟨dt, hdt⟩ := Option.isSome_iff_exists.mp h
      exact ⟨dt, by simp [hd, hdt]⟩

theorem mboxFold_char (pd : String → Option Nat) (fd : Nat) :
    ∀ (msgs : List MboxMessage) (st : MboxState),
      msgs.foldl (processMessage pd fd) st =
        ⟨st.yielded ++ msgs.filter (keepMessage pd fd),
          st.nmsgs + (msgs.filter (keepMessage pd fd)).length,
          st.imsgs + msgs.countP (fun m => !validateMessage pd m),
          st.tmsgs + msgs.countP (fun m => !dateSkipped pd fd m)⟩ := by
  intro msgs
  induction msgs with
  | nil =>
    intro st
    cases st with
    | mk y n i t => simp [List.foldl]
  | cons m msgs ih =>
    intro st
    rw [List.foldl_cons, ih]
    by_cases hv : validateMessage pd m = true
    · obtain ⟨dt, hdt⟩ := validateMessage_parses pd m hv
      by_cases hlt : dt < fd
      · have hstep : processMessage pd fd st m =
            ⟨st.yielded, st.nmsgs, st.imsgs, st.tmsgs + 1 - 1⟩ := by
          simp [processMessage, hv, hdt, hlt]
        have hkeep : keepMessage pd fd m = false := by
          simp [keepMessage, hv, hdt]
          omega
        have hskip : dateSkipped pd fd m = true := by
          simp [dateSkipped, hv, hdt, hlt]
        rw [hstep]
        refine MboxState.mk.injEq _ _ _ _ _ _ _ _ |>.mpr
          ⟨?_, ?_, ?_, ?_⟩ <;>
          simp [List.filter_cons, List.countP_cons, hkeep, hskip, hv]
      · have hstep : processMessage pd fd st m =
            ⟨st.yielded ++ [m], st.nmsgs + 1, st.imsgs, st.tmsgs + 1⟩ := by
          simp [processMessage, hv, hdt, hlt]
        have hkeep : keepMessage pd fd m = true := by
          simp [keepMessage, hv, hdt]
          omega
        have hskip : dateSkipped pd fd m = false := by
          simp [dateSkipped, hv, hdt]
          omega
        rw [hstep]
        refine MboxState.mk.injEq _ _ _ _ _ _ _ _ |>.mpr
          ⟨?_, ?_, ?_, ?_⟩ <;>
          simp [List.filter_cons, List.countP_cons, hkeep, hskip, hv] <;>
          omega
    · have hv' : validateMessage pd m = false := by
        simpa using hv
      have hstep : processMessage pd fd st m =
          ⟨st.yielded, st.nmsgs, st.imsgs + 1, st.tmsgs + 1⟩ := by
        simp [processMessage, hv']
      have hkeep : keepMessage pd fd m = false := by
        simp [keepMessage, hv']
      have hskip : dateSkipped pd fd m = false := by
        simp [dateSkipped, hv']
      rw [hstep]
      refine MboxState.mk.injEq _ _ _ _ _ _ _ _ |>.mpr
        ⟨?_, ?_, ?_, ?_⟩ <;>
        simp [List.filter_cons, List.countP_cons, hkeep, hskip, hv'] <;>
        omega

/-- C5.  Per-item validation failures do not abort an mbox session: a
message with a missing or empty `Message-ID`, a missing or empty
`Date`, or an unparsable `Date` is skipped (never yielded) while the
remaining messages are still processed in order, and the ignored count
`imsgs` is tracked separately from the total-seen count `tmsgs`. -/
theorem mbox_validation_failures_skip (pd : String → Option Nat) (fd : Nat)
    (msgs : List MboxMessage) :
    (mboxFetchAndParse pd fd msgs).yielded =
        msgs.filter (keepMessage pd fd) ∧
      (mboxFetchAndParse pd fd msgs).imsgs =
        msgs.countP (fun m => !validateMessage pd m) ∧
      (mboxFetchAndParse pd fd msgs).tmsgs =
        msgs.countP (fun m => !dateSkipped pd fd m) ∧
      (mboxFetchAndParse pd fd msgs).nmsgs =
        (msgs.filter (keepMessage pd fd)).length ∧
      ∀ m, validateMessage pd m = false ↔
        (m.messageId = none ∨ m.messageId = some "" ∨ m.date = none ∨
          m.date = some "" ∨ ∃ d, m.date = some d ∧ pd d = none) := by
  have hchar := mboxFold_char pd fd msgs ⟨[], 0, 0, 0⟩
  refine ⟨?_, ?_, ?_, ?_, ?_⟩
  · rw [mboxFetchAndParse, hchar]; simp
  · rw [mboxFetchAndParse, hchar]; simp
  · rw [mboxFetchAndParse, hchar]; simp
  · rw [mboxFetchAndParse, hchar]; simp
  · intro m
    unfold validateMessage
    cases hid : m.messageId with
    | none => simp
    | some mid =>
      by_cases hmid : mid = ""
      · simp [hmid]
      · cases hd : m.date with
        | none => simp [hmid]
        | some d =>
          by_cases hde : d = ""
          · simp [hmid, hde]
          · cases hpd : pd d with
            | none => simp [hmid, hde, hpd]
            | some dt => simp [hmid, hde, hpd]

/-- The MBox backend instance state: `uri`, `dirpath` (mbox.py lines
70-75) and the optional cache accepted by the constructor and kept by
the `Backend` base class. -/
structure MBoxBackend where
  uri : String
  dirpath : String
  cache : Option Cache
deriving Repr

/-- `MBox.fetch` (mbox.py lines 77-98): build the mailing list, run
`_fetch_and_parse_messages` and yield its messages.  The body never
references the backend's cache, so the backend state comes back
unchanged. -/
def mboxFetch (b : MBoxBackend) (parseDate : String → Option Nat)
    (fromDate : Nat) (msgs : List MboxMessage) :
    List MboxMessage × MBoxBackend :=
  ((mboxFetchAndParse parseDate fromDate msgs).yielded, b)

/-- `MBox.has_caching` (mbox.py lines 210-216): this backend does not
support caching. -/
def mboxHasCaching : Bool := false

/-- `MBox.has_resuming` (mbox.py lines 218-224). -/
def mboxHasResuming : Bool := true

/-- C10.  MBox fetch leaves the cache unchanged: for every MBox backend
instance, including one constructed with a cache object, `fetch` never
pushes to, flushes, or otherwise modifies the cache state, consistent
with `MBox.has_caching()` returning `False`. -/
theorem mbox_fetch_cache_unchanged (b : MBoxBackend)
    (parseDate : String → Option Nat) (fromDate : Nat)
    (msgs : List MboxMessage) :
    (mboxFetch b parseDate fromDate msgs).2.cache = b.cache ∧
      (mboxFetch b parseDate fromDate msgs).2 = b ∧
      mboxHasCaching = false :=
  ⟨rfl, rfl, rfl⟩

/-- Minute truncation performed by `from_date.strftime("%Y-%m-%d %H:%M")`
in `JiraClient.__build_jql_query` (jira.py line 175): the rendered date
drops the seconds, i.e. it denotes `from_date - from_date % 60` as a
UNIX timestamp. -/
def jqlDateBound (fromDate : Nat) : Nat := fromDate - fromDate % 60

/-- `JiraClient.__build_jql_query` (jira.py lines 171-180): the JQL
fragment built from the operators `' AND '`, `' updated > '` and
`' project = '` and the minute-rendered date `strdate`. -/
def buildJqlQuery (project : Option String) (strdate : String) : String :=
  match project with
  | some proj =>
    " project = " ++ proj ++ " AND " ++ " updated > " ++
      "\"" ++ strdate ++ "\""
  | none => " updated > " ++ "\"" ++ strdate ++ "\""

/-- Selection predicate denoted by the query: JQL `updated > d` keeps
exactly the items whose update time is strictly greater than `d`, and
the rendered `d` is `from_date` truncated to the minute. -/
def jqlSelects (fromDate t : Nat) : Bool :=
  decide (jqlDateBound fromDate < t)

/-- Modelled from the spec: `DEFAULT_DATETIME` lives in
`perceval/utils.py`, which is not under `src/`; spec §4.4 calls it "an
epoch-zero sentinel meaning all history". -/
def defaultDatetime : Nat := 0

/-- `if not from_date: from_date = DEFAULT_DATETIME` at the top of
`Jira.fetch` (jira.py lines 85-86): an omitted date defaults to the
sentinel. -/
def effectiveFromDate (fromDate : Option Nat) : Nat :=
  fromDate.getD defaultDatetime

/-- C4 counterexample: the Jira query uses the strict operator
`updated > ` on the minute-truncated date, so an item updated exactly at
a minute-aligned `from_date` (here 60) is not selected — contradicting
"items updated exactly at from_date are included" — and an item updated
at 70, before `from_date = 90`, is selected because the bound was
truncated to 60 — contradicting "every item yielded has its update
timestamp at-or-after from_date". -/
theorem date_scope_counterexample :
    jqlSelects 60 60 = false ∧ jqlSelects 90 70 = true ∧ 70 < 90 ∧
      buildJqlQuery none "1970-01-01 00:01" =
        " updated > " ++ "\"" ++ "1970-01-01 00:01" ++ "\"" :=
  ⟨by decide, by decide, by decide, rfl⟩

/-- C4 (amended).  Date-bounded fetch scope: every message yielded by the
MBox fetch has its parsed date at-or-after `from_date` (equality
included); the Jira client's query instead selects exactly the items
strictly after `from_date` truncated to the minute — so an item updated
exactly at `from_date` is selected iff `from_date` is not minute-aligned
— and an omitted `from_date` defaults to the epoch-zero sentinel. -/
theorem date_scope_amended (pd : String → Option Nat) (fromDate : Nat)
    (msgs : List MboxMessage) (m : MboxMessage)
    (hm : m ∈ (mboxFetchAndParse pd fromDate msgs).yielded) :
    (∃ d dt, m.date = some d ∧ pd d = some dt ∧ fromDate ≤ dt) ∧
      (∀ fd t, jqlSelects fd t = true ↔ fd - fd % 60 < t) ∧
      (∀ fd, jqlSelects fd fd = decide (0 < fd % 60)) ∧
      effectiveFromDate none = 0 := by
  refine ⟨?_, ?_, ?_, rfl⟩
  · have hchar := mboxFold_char pd fromDate msgs ⟨[], 0, 0, 0⟩
    rw [mboxFetchAndParse, hchar] at hm
    simp only [List.nil_append] at hm
    have hkeep := List.of_mem_filter hm
    have hv : validateMessage pd m = true := by
      have := Bool.and_elim_left (by simpa [keepMessage] using hkeep)
      exact this
    obtain ⟨dt, hdt⟩ := validateMessage_parses pd m hv
    obtain ⟨d, hd, hpd⟩ := Option.bind_eq_some.mp hdt
    refine ⟨d, dt, hd, hpd, ?_⟩
    have := Bool.and_elim_right (by simpa [keepMessage] using hkeep)
    rw [hdt] at this
    simpa using this
  · intro fd t
    simp [jqlSelects, jqlDateBound]
  · intro fd
    simp only [jqlSelects, jqlDateBound, decide_eq_decide]
    omega

theorem date_scope_amended_witness :
    (⟨some "m1", some "d", ""⟩ : MboxMessage) ∈
        (mboxFetchAndParse (fun s => if s = "d" then some 100 else none) 50
          [⟨some "m1", some "d", ""⟩]).yielded ∧
      ((∃ d dt, (⟨some "m1", some "d", ""⟩ : MboxMessage).date = some d ∧
          (if d = "d" then some 100 else none) = some dt ∧ 50 ≤ dt) ∧
        (∀ fd t, jqlSelects fd t = true ↔ fd - fd % 60 < t) ∧
        (∀ fd, jqlSelects fd fd = decide (0 < fd % 60)) ∧
        effectiveFromDate none = 0) :=
  ⟨by decide,
    date_scope_amended (fun s => if s = "d" then some 100 else none) 50
      [⟨some "m1", some "d", ""⟩] ⟨some "m1", some "d", ""⟩ (by decide)⟩

/-- Truncation to a 32-bit word. -/
def w32 (x : Nat) : Nat := x % 4294967296

/-- 32-bit left rotation. -/
def rotl32 (n x : Nat) : Nat := w32 ((x <<< n) ||| (x >>> (32 - n)))

/-- UTF-8 encoding of one code point (`str.encode` in Python). -/
def utf8EncodeNat (c : Nat) : List Nat :=
  if c < 128 then [c]
  else if c < 2048 then [192 ||| (c >>> 6), 128 ||| (c &&& 63)]
  else if c < 65536 then
    [224 ||| (c >>> 12), 128 ||| ((c >>> 6) &&& 63), 128 ||| (c &&& 63)]
  else
    [240 ||| (c >>> 18), 128 ||| ((c >>> 12) &&& 63),
      128 ||| ((c >>> 6) &&& 63), 128 ||| (c &&& 63)]

/-- UTF-8 bytes of a string. -/
def strBytes (s : String) : List Nat :=
  s.data.flatMap (fun c => utf8EncodeNat c.toNat)

/-- SHA-1 message padding: a `0x80` byte, zeros to 56 mod 64, then the
bit length as 8 big-endian bytes. -/
def sha1Pad (msg : List Nat) : List Nat :=
  let len := msg.length
  let z := (119 - len % 64) % 64
  msg ++ 128 :: List.replicate z 0 ++
    (List.range 8).map (fun i => ((8 * len) >>> (8 * (7 - i))) &&& 255)

/-- The sixteen 32-bit big-endian words of one 64-byte block. -/
def blockWords (block : List Nat) : List Nat :=
  (List.range 16).map fun j =>
    ((block.getD (4 * j) 0) <<< 24) ||| ((block.getD (4 * j + 1) 0) <<< 16) |||
      ((block.getD (4 * j + 2) 0) <<< 8) ||| (block.getD (4 * j + 3) 0)

/-- SHA-1 message-schedule extension from 16 to 80 words. -/
def sha1Extend : Nat → List Nat → List Nat
  | 0, ws => ws
  | f + 1, ws =>
    let n := ws.length
    let w := rotl32 1 ((ws.getD (n - 3) 0) ^^^ (ws.getD (n - 8) 0) ^^^
      (ws.getD (n - 14) 0) ^^^ (ws.getD (n - 16) 0))
    sha1Extend f (ws ++ [w])

/-- SHA-1 round function. -/
def sha1F (t b c d : Nat) : Nat :=
  if t < 20 then (b &&& c) ||| ((b ^^^ 4294967295) &&& d)
  else if t < 40 then b ^^^ c ^^^ d
  else if t < 60 then (b &&& c) ||| (b &&& d) ||| (c &&& d)
  else b ^^^ c ^^^ d

/-- SHA-1 round constants. -/
def sha1K (t : Nat) : Nat :=
  if t < 20 then 1518500249
  else if t < 40 then 1859775393
  else if t < 60 then 2400959708
  else 3395469782

/-- The 80 SHA-1 rounds over the schedule words. -/
def sha1Rounds : Nat → List Nat → Nat × Nat × Nat × Nat × Nat →
    Nat × Nat × Nat × Nat × Nat
  | _, [], st => st
  | t, w :: ws, (a, b, c, d, e) =>
    let tmp := w32 (rotl32 5 a + sha1F t b c d + e + sha1K t + w)
    sha1Rounds (t + 1) ws (tmp, a, rotl32 30 b, c, d)

/-- Compression of one 64-byte block into the running hash state. -/
def sha1Block (block : List Nat) (h : Nat × Nat × Nat × Nat × Nat) :
    Nat × Nat × Nat × Nat × Nat :=
  let ws := sha1Extend 64 (blockWords block)
  match h, sha1Rounds 0 ws h with
  | (h0, h1, h2, h3, h4), (a, b, c, d, e) =>
    (w32 (h0 + a), w32 (h1 + b), w32 (h2 + c), w32 (h3 + d), w32 (h4 + e))

/-- Iterate the compression over the given number of 64-byte blocks. -/
def sha1Blocks : Nat → List Nat → Nat × Nat × Nat × Nat × Nat →
    Nat × Nat × Nat × Nat × Nat
  | 0, _, h => h
  | f + 1, bytes, h => sha1Blocks f (bytes.drop 64) (sha1Block (bytes.take 64) h)

/-- SHA-1 digest (five 32-bit words) of a byte sequence. -/
def sha1Digest (msg : List Nat) : Nat × Nat × Nat × Nat × Nat :=
  let padded := sha1Pad msg
  sha1Blocks (padded.length / 64) padded
    (1732584193, 4023233417, 2562383102, 271733878, 3285377520)

/-- Lowercase hexadecimal digit. -/
def hexDigit (n : Nat) : Char :=
  if n < 10 then Char.ofNat (48 + n) else Char.ofNat (87 + n)

/-- Eight lowercase hex digits of a 32-bit word. -/
def wordHex (w : Nat) : List Char :=
  (List.range 8).map fun i => hexDigit ((w >>> (28 - 4 * i)) &&& 15)

/-- `hashlib.sha1(...).hexdigest()`: lowercase-hex SHA-1 of a byte
sequence. -/
def sha1Hex (msg : List Nat) : String :=
  match sha1Digest msg with
  | (a, b, c, d, e) =>
    String.mk (wordHex a ++ wordHex b ++ wordHex c ++ wordHex d ++ wordHex e)

/-- A Python value passed to `uuid`: a string, `None`, or a value of a
non-string type (the tag records which, e.g. an int or float literal in
TestUUID). -/
inductive PyArg where
  | pyStr (s : String)
  | pyNone
  | pyOther (tag : String)
deriving DecidableEq, Repr

/-- An argument `uuid` accepts: a non-empty string. -/
def validUuidArg : PyArg → Bool
  | .pyStr s => s != ""
  | _ => false

/-- The string carried by an argument (only used once validated). -/
def argStr : PyArg → String
  | .pyStr s => s
  | _ => ""

/-- `':'.join(args)`: join the fields with the `':'` delimiter (the
delimiter is pinned by the digests in TestUUID.test_uuid). -/
def joinFields : List String → String
  | [] => ""
  | [s] => s
  | s :: l => s ++ ":" ++ joinFields l

/-- Modelled from the spec: `uuid` lives in `perceval/backend.py`, which
is not under `src/`.  Spec §4.1: raise a `ValueError`-class error when
any field is `None`, empty, or not a string; otherwise concatenate the
fields with the fixed `':'` delimiter and return the lowercase-hex
SHA-1 digest of the UTF-8 bytes (delimiter and digest pinned by the
expected values in TestUUID.test_uuid, lines 667-674). -/
def uuid (args : List PyArg) : Except String String :=
  if args.all validUuidArg then
    .ok (sha1Hex (strBytes (joinFields (args.map argStr))))
  else
    .error "value is none, empty or not a string"

/-- C6.  uuid input validation: an argument that is `None`, the empty
string, or not a string, at any position, makes `uuid` raise a
`ValueError`-class error, producing no digest. -/
theorem uuid_input_validation (args : List PyArg) (a : PyArg)
    (hmem : a ∈ args)
    (hbad : a = .pyNone ∨ a = .pyStr "" ∨ ∃ t, a = .pyOther t) :
    uuid args = .error "value is none, empty or not a string" := by
  have hall : args.all validUuidArg = false := by
    rw [List.all_eq_false]
    refine ⟨a, hmem, ?_⟩
    rcases hbad with h | h | ⟨t, h⟩ <;> subst h <;> simp [validUuidArg]
  rw [uuid, hall]
  simp

theorem uuid_input_validation_witness :
    PyArg.pyNone ∈ [PyArg.pyStr "1", PyArg.pyNone] ∧
      uuid [PyArg.pyStr "1", PyArg.pyNone] =
        .error "value is none, empty or not a string" :=
  ⟨by decide,
    uuid_input_validation [PyArg.pyStr "1", PyArg.pyNone] PyArg.pyNone
      (by decide) (Or.inl rfl)⟩

instance : DecidableEq (Except String String) := fun a b =>
  match a, b with
  | .ok x, .ok y =>
    if h : x = y then isTrue (by rw [h]) else isFalse (by simp [h])
  | .error x, .error y =>
    if h : x = y then isTrue (by rw [h]) else isFalse (by simp [h])
  | .ok _, .error _ => isFalse (by simp)
  | .error _, .ok _ => isFalse (by simp)

set_option maxRecDepth 40000 in
/-- C7 counterexample: the order-sensitivity clause fails as a universal
statement.  `['a', 'a:a']` and `['a:a', 'a']` are the same multiset in
different orders with not-all-equal elements, yet both join to
`'a:a:a'`, so `uuid` returns the same digest for both. -/
theorem uuid_order_counterexample :
    uuid [PyArg.pyStr "a", PyArg.pyStr "a:a"] =
        uuid [PyArg.pyStr "a:a", PyArg.pyStr "a"] ∧
      [PyArg.pyStr "a", PyArg.pyStr "a:a"].Perm
        [PyArg.pyStr "a:a", PyArg.pyStr "a"] ∧
      [PyArg.pyStr "a", PyArg.pyStr "a:a"] ≠
        [PyArg.pyStr "a:a", PyArg.pyStr "a"] ∧
      PyArg.pyStr "a" ≠ PyArg.pyStr "a:a" := by
  refine ⟨rfl, by decide, by decide, by decide⟩

/-- Join of colon-free character lists, mirroring `joinFields` at the
character level. -/
def cJoin : List (List Char) → List Char
  | [] => []
  | [s] => s
  | s :: l => s ++ ':' :: cJoin l

theorem joinFields_data :
    ∀ l : List String, (joinFields l).data = cJoin (l.map String.data)
  | [] => rfl
  | [_] => rfl
  | s :: y :: l => by
    have ih := joinFields_data (y :: l)
    simp only [joinFields, cJoin, List.map_cons, String.data_append, ih]
    simp [List.append_assoc]

theorem splitAtColon :
    ∀ s1 s2 t1 t2 : List Char,
      (∀ c ∈ s1, c ≠ ':') → (∀ c ∈ s2, c ≠ ':') →
      s1 ++ ':' :: t1 = s2 ++ ':' :: t2 → s1 = s2 ∧ t1 = t2 := by
  intro s1
  induction s1 with
  | nil =>
    intro s2 t1 t2 _ h2 heq
    cases s2 with
    | nil => simpa using heq
    | cons c s2 =>
      simp only [List.nil_append, List.cons_append, List.cons.injEq] at heq
      exact absurd heq.1.symm (h2 c (by simp))
  | cons c s1 ih =>
    intro s2 t1 t2 h1 h2 heq
    cases s2 with
    | nil =>
      simp only [List.nil_append, List.cons_append, List.cons.injEq] at heq
      exact absurd heq.1 (h1 c (by simp))
    | cons c2 s2 =>
      simp only [List.cons_append, List.cons.injEq] at heq
      obtain ⟨hc, hrest⟩ := heq
      obtain ⟨hs, ht⟩ := ih s2 t1 t2
        (fun x hx => h1 x (by simp [hx]))
        (fun x hx => h2 x (by simp [hx])) hrest
      exact ⟨by rw [hc, hs], ht⟩

theorem cJoin_inj :
    ∀ l1 l2 : List (List Char),
      (∀ s ∈ l1, ∀ c ∈ s, c ≠ ':') → (∀ s ∈ l2, ∀ c ∈ s, c ≠ ':') →
      l1 ≠ [] → l2 ≠ [] → cJoin l1 = cJoin l2 → l1 = l2 := by
  intro l1
  induction l1 with
  | nil => intro l2 _ _ h1 _ _; exact absurd rfl h1
  | cons s1 r1 ih =>
    intro l2 hf1 hf2 _ hne2 heq
    cases l2 with
    | nil => exact absurd rfl hne2
    | cons s2 r2 =>
      cases r1 with
      | nil =>
        cases r2 with
        | nil =>
          have : s1 = s2 := by simpa [cJoin] using heq
          rw [this]
        | cons z r2 =>
          exfalso
          have hmem : ':' ∈ s1 := by
            have : cJoin [s1] = cJoin (s2 :: z :: r2) := heq
            simp only [cJoin] at this
            rw [this]
            simp
          exact hf1 s1 (by simp) ':' hmem rfl
      | cons y r1 =>
        cases r2 with
        | nil =>
          exfalso
          have hmem : ':' ∈ s2 := by
            have : cJoin (s1 :: y :: r1) = cJoin [s2] := heq
            simp only [cJoin] at this
            rw [← this]
            simp
          exact hf2 s2 (by simp) ':' hmem rfl
        | cons z r2 =>
          simp only [cJoin] at heq
          obtain ⟨hs, ht⟩ := splitAtColon s1 s2 (cJoin (y :: r1))
            (cJoin (z :: r2)) (hf1 s1 (by simp)) (hf2 s2 (by simp)) heq
          have htail := ih (z :: r2)
            (fun s hs => hf1 s (by simp [hs]))
            (fun s hs => hf2 s (by simp [hs]))
            (by simp) (by simp) ht
          rw [hs, htail]

/-- A string not containing the `':'` delimiter. -/
def colonFree (s : String) : Bool := s.data.all (fun c => c != ':')

theorem joinFields_inj (l1 l2 : List String)
    (h1 : ∀ s ∈ l1, colonFree s = true) (h2 : ∀ s ∈ l2, colonFree s = true)
    (hne1 : l1 ≠ []) (hne2 : l2 ≠ []) (hne : l1 ≠ l2) :
    joinFields l1 ≠ joinFields l2 := by
  intro heq
  apply hne
  have hd : cJoin (l1.map String.data) = cJoin (l2.map String.data) := by
    rw [← joinFields_data, ← joinFields_data, heq]
  have hcf : ∀ l : List String, (∀ s ∈ l, colonFree s = true) →
      ∀ s ∈ l.map String.data, ∀ c ∈ s, c ≠ ':' := by
    intro l hl s hs c hc
    obtain ⟨w, hw, rfl⟩ := List.mem_map.mp hs
    have := List.all_eq_true.mp (hl w hw) c hc
    simpa using this
  have hmap := cJoin_inj _ _ (hcf l1 h1) (hcf l2 h2)
    (by simpa using hne1) (by simpa using hne2) hd
  have hinj : Function.Injective String.data := fun a b hab => String.ext hab
  exact List.map_injective_iff.mpr hinj hmap

set_option maxRecDepth 40000 in
/-- C7 (amended).  uuid determinism and order sensitivity: `uuid` is a
pure function, so identical argument lists give identical output; when
no argument contains the `':'` delimiter, different argument orders
(indeed any two different argument lists) produce different joined
digest inputs; the cited digests hold, and for the concrete pair
`('1','2')` versus `('2','1')` the outputs indeed differ. -/
theorem uuid_determinism_order_amended (l1 l2 : List String)
    (h1 : ∀ s ∈ l1, colonFree s = true) (h2 : ∀ s ∈ l2, colonFree s = true)
    (hne1 : l1 ≠ []) (hne2 : l2 ≠ []) (hne : l1 ≠ l2) :
    joinFields l1 ≠ joinFields l2 ∧
      (∀ args : List PyArg, uuid args = uuid args) ∧
      uuid [PyArg.pyStr "1", PyArg.pyStr "2", PyArg.pyStr "3",
          PyArg.pyStr "4"] =
        .ok "e7b71c81f5a0723e2237f157dba81777ce7c6c21" ∧
      uuid [PyArg.pyStr "http://example.com/", PyArg.pyStr "1234567"] =
        .ok "47509b2f0d4ffc513ca9230838a69aa841d7f055" ∧
      uuid [PyArg.pyStr "1", PyArg.pyStr "2"] ≠
        uuid [PyArg.pyStr "2", PyArg.pyStr "1"] := by
  refine ⟨joinFields_inj l1 l2 h1 h2 hne1 hne2 hne, fun _ => rfl,
    by decide, by decide, by decide⟩

set_option maxRecDepth 40000 in
theorem uuid_determinism_order_amended_witness :
    (∀ s ∈ ["1", "2"], colonFree s = true) ∧
      (∀ s ∈ ["2", "1"], colonFree s = true) ∧
      (["1", "2"] : List String) ≠ [] ∧ (["2", "1"] : List String) ≠ [] ∧
      (["1", "2"] : List String) ≠ ["2", "1"] ∧
      (joinFields ["1", "2"] ≠ joinFields ["2", "1"] ∧
        (∀ args : List PyArg, uuid args = uuid args) ∧
        uuid [PyArg.pyStr "1", PyArg.pyStr "2", PyArg.pyStr "3",
            PyArg.pyStr "4"] =
          .ok "e7b71c81f5a0723e2237f157dba81777ce7c6c21" ∧
        uuid [PyArg.pyStr "http://example.com/", PyArg.pyStr "1234567"] =
          .ok "47509b2f0d4ffc513ca9230838a69aa841d7f055" ∧
        uuid [PyArg.pyStr "1", PyArg.pyStr "2"] ≠
          uuid [PyArg.pyStr "2", PyArg.pyStr "1"]) :=
  ⟨by decide, by decide, by decide, by decide, by decide,
    uuid_determinism_order_amended ["1", "2"] ["2", "1"]
      (by decide) (by decide) (by decide) (by decide) (by decide)⟩

/-- Modelled from the spec: the `metadata` decorator lives in
`perceval/backend.py`, which is not under `src/`.  The Enriched Record
of spec §3: the raw item plus provenance metadata. -/
structure EnrichedRecord (α : Type u) where
  data : α
  uuidHex : String
  origin : String
  tag : String
  updatedOn : Nat
  timestamp : Nat
  backendName : String
  backendVersion : String
  category : String
deriving Repr

/-- Modelled from the spec: the Record Enricher of spec §4.3, wrapping a
backend's raw-item generator.  For the `k`-th item it computes
`uuid(origin, metadata_id(item))`, the category, and captures
`timestamp = now()`; `clock k` is the wall-clock reading when the
`k`-th record is produced (single-threaded, synchronous production). -/
def enrichFrom (origin tag backendName backendVersion : String)
    (mId : α → String) (mUpd : α → Nat) (mCat : α → String)
    (clock : Nat → Nat) : Nat → List α → List (EnrichedRecord α)
  | _, [] => []
  | k, x :: xs =>
    { data := x,
      uuidHex := sha1Hex (strBytes (joinFields [origin, mId x])),
      origin := origin, tag := tag, updatedOn := mUpd x,
      timestamp := clock k, backendName := backendName,
      backendVersion := backendVersion, category := mCat x } ::
      enrichFrom origin tag backendName backendVersion mId mUpd mCat clock
        (k + 1) xs

/-- The enrichment pipeline stage applied to a whole fetch session. -/
def enrich (origin tag backendName backendVersion : String)
    (mId : α → String) (mUpd : α → Nat) (mCat : α → String)
    (clock : Nat → Nat) (items : List α) : List (EnrichedRecord α) :=
  enrichFrom origin tag backendName backendVersion mId mUpd mCat clock 0
    items

theorem enrichFrom_map_data (origin tag bn bv : String) (mId : α → String)
    (mUpd : α → Nat) (mCat : α → String) (clock : Nat → Nat) :
    ∀ (items : List α) (k : Nat),
      (enrichFrom origin tag bn bv mId mUpd mCat clock k items).map
        (fun r => r.data) = items := by
  intro items
  induction items with
  | nil => intro k; rfl
  | cons x xs ih =>
    intro k
    simp [enrichFrom, ih (k + 1)]

theorem enrichFrom_timestamp_mem (origin tag bn bv : String)
    (mId : α → String) (mUpd : α → Nat) (mCat : α → String)
    (clock : Nat → Nat) :
    ∀ (items : List α) (k t : Nat),
      t ∈ (enrichFrom origin tag bn bv mId mUpd mCat clock k items).map
        (fun r => r.timestamp) →
      ∃ j, k ≤ j ∧ t = clock j := by
  intro items
  induction items with
  | nil => intro k t h; simp [enrichFrom] at h
  | cons x xs ih =>
    intro k t h
    simp only [enrichFrom, List.map_cons, List.mem_cons] at h
    rcases h with h | h
    · exact ⟨k, le_refl k, h⟩
    · obtain ⟨j, hj, ht⟩ := ih (k + 1) t h
      exact ⟨j, by omega, ht⟩

theorem enrichFrom_pairwise (origin tag bn bv : String) (mId : α → String)
    (mUpd : α → Nat) (mCat : α → String) (clock : Nat → Nat)
    (hclock : ∀ j k, j ≤ k → clock j ≤ clock k) :
    ∀ (items : List α) (k : Nat),
      ((enrichFrom origin tag bn bv mId mUpd mCat clock k items).map
        (fun r => r.timestamp)).Pairwise (· ≤ ·) := by
  intro items
  induction items with
  | nil => intro k; simp [enrichFrom]
  | cons x xs ih =>
    intro k
    simp only [enrichFrom, List.map_cons, List.pairwise_cons]
    refine ⟨?_, ih (k + 1)⟩
    intro t ht
    obtain ⟨j, hj, rfl⟩ :=
      enrichFrom_timestamp_mem origin tag bn bv mId mUpd mCat clock xs
        (k + 1) t ht
    exact hclock k j (by omega)

/-- C9.  Enrichment preserves order with monotone timestamps: the
Enriched Records of a fetch mirror the raw-item order one-to-one, and
since the wall clock read at each yield is non-decreasing in a
single-threaded synchronous run, the `timestamp` fields are
monotonically non-decreasing across the sequence. -/
theorem enrichment_order_and_monotone_timestamps
    (origin tag bn bv : String) (mId : α → String) (mUpd : α → Nat)
    (mCat : α → String) (clock : Nat → Nat) (items : List α)
    (hclock : ∀ j k, j ≤ k → clock j ≤ clock k) :
    (enrich origin tag bn bv mId mUpd mCat clock items).map
        (fun r => r.data) = items ∧
      ((enrich origin tag bn bv mId mUpd mCat clock items).map
        (fun r => r.timestamp)).Pairwise (· ≤ ·) :=
  ⟨enrichFrom_map_data origin tag bn bv mId mUpd mCat clock items 0,
    enrichFrom_pairwise origin tag bn bv mId mUpd mCat clock hclock items 0⟩

theorem enrichment_order_and_monotone_timestamps_witness :
    (∀ j k : Nat, j ≤ k → 2 * j ≤ 2 * k) ∧
      ((enrich "test" "mytag" "MockedBackend" "0.2.0"
          (fun x : Nat => toString x) (fun _ => 0) (fun _ => "mock_item")
          (fun k => 2 * k) [10, 11, 12]).map (fun r => r.data) =
        [10, 11, 12] ∧
      ((enrich "test" "mytag" "MockedBackend" "0.2.0"
          (fun x : Nat => toString x) (fun _ => 0) (fun _ => "mock_item")
          (fun k => 2 * k) [10, 11, 12]).map
        (fun r => r.timestamp)).Pairwise (· ≤ ·)) :=
  ⟨fun _ _ h => by omega,
    enrichment_order_and_monotone_timestamps "test" "mytag" "MockedBackend"
      "0.2.0" (fun x : Nat => toString x) (fun _ => 0) (fun _ => "mock_item")
      (fun k => 2 * k) [10, 11, 12]
      (fun j k h => by show 2 * j ≤ 2 * k; omega)⟩

end Perceval
